import Mathlib

/-!
Verification of the per-period economic core of the GCAM `technology` unit
(src/objects/technologies/source/technology.cpp).

Doubles are modelled as exact rationals (`ℚ`) for all arithmetic that only
uses field operations, `max` and comparisons, and as reals (`ℝ`) where the
code calls `pow` with a real exponent (`calcShare`).  External collaborators
(the market ledger, the model-time table, the GDP driver) are passed in as
explicit arguments: the ledger price already resolved to a number, the
model-time mapping as the calendar year of the evaluated period, the GDP
driver as the scaled GDP per capita value.
-/

namespace Technology

/-- Sentinel for an unset fixed output (`technology::getFixedOutputDefault`). -/
def getFixedOutputDefault : ℚ := -1

/-- Effective efficiency (`technology::getEfficiency`):
`mTechData->getEfficiency() * ( 1 - mTechData->getEffPenalty() )`. -/
def getEfficiency (efficiency effPenalty : ℚ) : ℚ :=
  efficiency * (1 - effPenalty)

/-- Effective non-energy cost (`technology::getNonEnergyCost`):
`mTechData->getNonEnergyCost() * ( 1 + mTechData->getNECostPenalty() )`. -/
def getNonEnergyCost (nonEnergyCost neCostPenalty : ℚ) : ℚ :=
  nonEnergyCost * (1 + neCostPenalty)

/-- Cost computation (`technology::calcCost`, lines 548-579), after the fuel
price has been resolved from the ledger.  Returns `(fuelcost, techcost)`.
`smallNumber` stands for `util::getSmallNumber()`, which lives outside this
unit; the spec describes it as a small positive epsilon, so it is taken here
as a parameter. -/
def calcCost (fuelprice fMultiplier efficiency effPenalty nonEnergyCost
    neCostPenalty pMultiplier secondaryValue smallNumber : ℚ) : ℚ × ℚ :=
  let fuelcost := fuelprice * fMultiplier / getEfficiency efficiency effPenalty
  let techcost := (fuelcost + getNonEnergyCost nonEnergyCost neCostPenalty) * pMultiplier
  let techcost := techcost - secondaryValue
  (fuelcost, max techcost smallNumber)

/-- Share normalization (`technology::normShare`, lines 610-618). -/
def normShare (share sum : ℚ) : ℚ :=
  if sum = 0 then 0 else share / sum

/-- Fixed-vs-variable share reconciliation (`technology::adjShares`, lines
721-753).  State touched by the routine is `(share, fixedOutputVal)`; the
function returns the updated pair. -/
def adjShares (subsecdmd subsecfixedOutput varShareTot : ℚ)
    (share fixedOutputVal : ℚ) : ℚ × ℚ :=
  if 0 < subsecfixedOutput then
    let remainingDemand := subsecdmd - subsecfixedOutput
    let remainingDemand := if remainingDemand < 0 then 0 else remainingDemand
    if 0 ≤ fixedOutputVal then
      -- this tech has a fixed supply
      if 0 < subsecdmd then
        (fixedOutputVal / subsecdmd,
         if subsecdmd < fixedOutputVal then subsecfixedOutput else fixedOutputVal)
      else
        (0, fixedOutputVal)
    else
      -- this tech does not have fixed supply
      if 0 < subsecdmd then
        (share * (remainingDemand / subsecdmd) / varShareTot, fixedOutputVal)
      else
        (0, fixedOutputVal)
  else
    (share, fixedOutputVal)

/-- Calibration adjustment of the share weight
(`technology::adjustForCalibration`, lines 836-872).  `calOutput` is the
calibration output already resolved for the period; the function returns the
updated `shrwts`. -/
def adjustForCalibration (calOutput share subSectorDemand shrwts : ℚ) : ℚ :=
  let shrwts := if shrwts = 0 ∧ 0 < calOutput then 1 else shrwts
  let technologyDemand := share * subSectorDemand
  let shrwts :=
    if 0 < technologyDemand then shrwts * (calOutput / technologyDemand) else shrwts
  if shrwts < 0 then 1 else shrwts

/-- Fixed input (`technology::getFixedInput`, lines 668-677).  `periodYear` is
`scenario->getModeltime()->getper_to_yr( aPeriod )`. -/
def getFixedInput (fixedOutputVal : ℚ) (year periodYear : ℤ)
    (efficiency effPenalty : ℚ) : ℚ :=
  if fixedOutputVal = getFixedOutputDefault ∨ year ≠ periodYear then 0
  else fixedOutputVal / getEfficiency efficiency effPenalty

/-- The marketplace-registration guard and fuel-input computation of
`technology::production` (lines 765-794).  Returns the computed `input`
(`share * aDemand / effective efficiency`) together with the Boolean value of
the guard deciding whether `marketplace->addToDemand` is invoked for the fuel:
`( fuel != "renewable" ) && ( ( fuel != "none" ) || fuel.empty() )`. -/
def production (share demand efficiency effPenalty : ℚ)
    (fuelName : String) : ℚ × Bool :=
  let primaryOutput := share * demand
  let input := primaryOutput / getEfficiency efficiency effPenalty
  (input, (!(fuelName == "renewable")) && ((!(fuelName == "none")) || fuelName.isEmpty))

/-- Unnormalized share (`technology::calcShare`, lines 590-601), over the
reals because the code raises `techcost` to the real power `lexp`:
`share = shrwts * pow( techcost, lexp )`, then, when the fuel preference
elasticity is nonzero, `share *= pow( scaledGdpPerCapita, elasticity )`. -/
noncomputable def calcShare (shrwts lexp fuelPrefElasticity
    scaledGdpPerCapita techcost : ℝ) : ℝ :=
  let share := shrwts * techcost ^ lexp
  if fuelPrefElasticity = 0 then share
  else share * scaledGdpPerCapita ^ fuelPrefElasticity

/-- An output channel: the primary output created by `completeInit`, or a
secondary output read from configuration. -/
inductive OutputChannel where
  | primaryOutput (sectorName : String)
  | secondaryOutput (name : String)
deriving DecidableEq

/-- Effect of `technology::completeInit` (lines 315-321) on the list of gas
names: when no source with the CO2 name is registered, one is appended. -/
def completeInitGhg (co2Name : String) (ghgNames : List String) : List String :=
  if co2Name ∈ ghgNames then ghgNames else ghgNames ++ [co2Name]

/-- Effect of `technology::completeInit` (line 325) on the output list: the
primary output is always inserted at position 0. -/
def completeInitOutputs (sectorName : String)
    (mOutputs : List OutputChannel) : List OutputChannel :=
  OutputChannel.primaryOutput sectorName :: mOutputs

/-- Per-period state of one emission source, as read back by `calcEmission`. -/
structure GhgState where
  name : String
  emission : ℚ
  emissFuel : ℚ
  sequestAmountGeologic : ℚ
  sequestAmountNonEngy : ℚ
deriving DecidableEq

/-- Insert-or-overwrite on an association list, the update semantics of
`std::map::operator[]` followed by assignment. -/
def mapSet (m : List (String × ℚ)) (k : String) (v : ℚ) : List (String × ℚ) :=
  match m with
  | [] => [(k, v)]
  | (k', v') :: rest => if k' = k then (k, v) :: rest else (k', v') :: mapSet rest k v

/-- Body of the loop of `technology::calcEmission` for one gas: four entries
written into `emissmap`, one entry (keyed by the fuel name only) written into
`emfuelmap`. -/
def calcEmissionStep (fuelName : String)
    (maps : List (String × ℚ) × List (String × ℚ)) (g : GhgState) :
    List (String × ℚ) × List (String × ℚ) :=
  let em := mapSet maps.1 g.name g.emission
  let em := mapSet em (g.name ++ fuelName) g.emission
  let em := mapSet em (g.name ++ "sequestGeologic") g.sequestAmountGeologic
  let em := mapSet em (g.name ++ "sequestNonEngy") g.sequestAmountNonEngy
  (em, mapSet maps.2 fuelName g.emissFuel)

/-- Emission bookkeeping (`technology::calcEmission`, lines 875-894): both
maps are cleared, then rebuilt in a single pass over the gas list.  Returns
`(emissmap, emfuelmap)`. -/
def calcEmission (fuelName : String) (ghg : List GhgState) :
    List (String × ℚ) × List (String × ℚ) :=
  ghg.foldl (calcEmissionStep fuelName) ([], [])

end Technology

namespace Technology

/-- Claim C6: for every prior value of the unnormalized share, `normShare`
with `sum = 0` sets the share to exactly 0, and for any nonzero `sum` the
share is divided by `sum`. -/
theorem normShare_spec (share sum : ℚ) :
    normShare share 0 = 0 ∧ (sum ≠ 0 → normShare share sum = share / sum) := by
  constructor
  · simp [normShare]
  · intro h
    simp [normShare, h]

/-- Witness for C6 at `share = 6`, `sum = 3`. -/
theorem normShare_spec_witness :
    (3 : ℚ) ≠ 0 ∧ normShare 6 3 = 6 / 3 :=
  ⟨by norm_num, (normShare_spec 6 3).2 (by norm_num)⟩

/-- Claim C9: when `adjShares` is called with `subsecfixedOutput ≤ 0` the call
is a complete no-op: both the share and the working fixed-output value are
returned unchanged, whatever the other arguments and the prior state. -/
theorem adjShares_noop (subsecdmd subsecfixedOutput varShareTot share
    fixedOutputVal : ℚ) (h : subsecfixedOutput ≤ 0) :
    adjShares subsecdmd subsecfixedOutput varShareTot share fixedOutputVal
      = (share, fixedOutputVal) := by
  unfold adjShares
  rw [if_neg (not_lt.mpr h)]

/-- Witness for C9 at concrete arguments with `subsecfixedOutput = 0`. -/
theorem adjShares_noop_witness :
    (0 : ℚ) ≤ 0 ∧ adjShares 5 0 2 3 7 = (3, 7) :=
  ⟨le_refl 0, adjShares_noop 5 0 2 3 7 (le_refl 0)⟩

lemma ite_lt_zero_eq_max (a : ℚ) : (if a < 0 then 0 else a) = max a 0 := by
  rcases lt_or_le a 0 with h | h
  · simp [h, max_eq_right h.le]
  · simp [not_lt.mpr h, max_eq_left h]

/-- Claim C1: with positive subsector fixed output, `adjShares` sets a
fixed-output technology share to `fixedOutputVal / subsecdmd` (0 when the
demand is 0) and rescales a variable technology share to
`share * (max (subsecdmd - subsecfixedOutput) 0 / subsecdmd) / varShareTot`
(0 when the demand is 0); at `fixedOutputVal = 40`, prior variable share 1,
`subsecdmd = 100`, `subsecfixedOutput = 40`, `varShareTot = 1` the fixed
share becomes 2/5 = 0.4 and the variable share 3/5 = 0.6. -/
theorem adjShares_spec (subsecdmd subsecfixedOutput varShareTot share
    fixedOutputVal : ℚ) (hfix : 0 < subsecfixedOutput) :
    (0 ≤ fixedOutputVal → 0 < subsecdmd →
      (adjShares subsecdmd subsecfixedOutput varShareTot share fixedOutputVal).1
        = fixedOutputVal / subsecdmd)
  ∧ (0 ≤ fixedOutputVal → subsecdmd = 0 →
      (adjShares subsecdmd subsecfixedOutput varShareTot share fixedOutputVal).1 = 0)
  ∧ (fixedOutputVal < 0 → 0 < subsecdmd →
      (adjShares subsecdmd subsecfixedOutput varShareTot share fixedOutputVal).1
        = share * (max (subsecdmd - subsecfixedOutput) 0 / subsecdmd) / varShareTot)
  ∧ (fixedOutputVal < 0 → subsecdmd = 0 →
      (adjShares subsecdmd subsecfixedOutput varShareTot share fixedOutputVal).1 = 0)
  ∧ (adjShares 100 40 1 share 40).1 = 2 / 5
  ∧ (adjShares 100 40 1 1 (-1)).1 = 3 / 5 := by
  refine ⟨?_, ?_, ?_, ?_, ?_, ?_⟩
  · intro h1 h2
    simp [adjShares, hfix, h1, h2]
  · intro h1 h2
    subst h2
    simp [adjShares, hfix, h1]
  · intro h1 h2
    simp only [adjShares, ite_lt_zero_eq_max]
    simp [hfix, not_le.mpr h1, h2]
  · intro h1 h2
    subst h2
    simp [adjShares, hfix, not_le.mpr h1]
  · norm_num [adjShares]
  · norm_num [adjShares]

/-- Witness for C1 at `subsecdmd = 100`, `subsecfixedOutput = 40`,
`varShareTot = 1`, variable technology with prior share 1. -/
theorem adjShares_spec_witness :
    (0 : ℚ) < 40 ∧ (-1 : ℚ) < 0 ∧ (0 : ℚ) < 100 ∧
      (adjShares 100 40 1 1 (-1)).1 = 1 * (max (100 - 40) 0 / 100) / 1 :=
  ⟨by norm_num, by norm_num, by norm_num,
    (adjShares_spec 100 40 1 1 (-1) (by norm_num)).2.2.1 (by norm_num) (by norm_num)⟩

/-- Claim C2: `calcCost` computes
`fuelcost = fuelprice * fMultiplier / (efficiency * (1 - effPenalty))` and
`techcost = (fuelcost + nonEnergyCost * (1 + neCostPenalty)) * pMultiplier`
minus the net secondary value, floored at the positive epsilon, so the total
cost is never zero or negative; at fuel price 10, efficiency 1/2, fuel
multiplier 1, non-energy cost 2, price multiplier 1, no penalties and no
secondary value, `fuelcost = 20` and `techcost = 22`. -/
theorem calcCost_spec (fuelprice fMultiplier efficiency effPenalty
    nonEnergyCost neCostPenalty pMultiplier secondaryValue smallNumber : ℚ)
    (heps : 0 < smallNumber) :
    (calcCost fuelprice fMultiplier efficiency effPenalty nonEnergyCost
        neCostPenalty pMultiplier secondaryValue smallNumber).1
      = fuelprice * fMultiplier / (efficiency * (1 - effPenalty))
  ∧ (calcCost fuelprice fMultiplier efficiency effPenalty nonEnergyCost
        neCostPenalty pMultiplier secondaryValue smallNumber).2
      = max ((fuelprice * fMultiplier / (efficiency * (1 - effPenalty))
            + nonEnergyCost * (1 + neCostPenalty)) * pMultiplier
          - secondaryValue) smallNumber
  ∧ 0 < (calcCost fuelprice fMultiplier efficiency effPenalty nonEnergyCost
        neCostPenalty pMultiplier secondaryValue smallNumber).2
  ∧ (smallNumber ≤ 22 →
      calcCost 10 1 (1/2) 0 2 0 1 0 smallNumber = (20, 22)) := by
  refine ⟨rfl, rfl, ?_, ?_⟩
  · exact lt_of_lt_of_le heps (le_max_right _ _)
  · intro h22
    have : ((10 : ℚ) * 1 / (1 / 2 * (1 - 0)) + 2 * (1 + 0)) * 1 - 0 = 22 := by norm_num
    simp only [calcCost, getEfficiency, getNonEnergyCost]
    norm_num [max_eq_left h22]

/-- Witness for C2 with epsilon `1/1000000`. -/
theorem calcCost_spec_witness :
    (0 : ℚ) < 1 / 1000000 ∧ (1 : ℚ) / 1000000 ≤ 22 ∧
      calcCost 10 1 (1/2) 0 2 0 1 0 (1/1000000) = (20, 22) :=
  ⟨by norm_num, by norm_num,
    (calcCost_spec 10 1 (1/2) 0 2 0 1 0 (1/1000000) (by norm_num)).2.2.2 (by norm_num)⟩

/-- Claim C7: `getFixedInput` returns `fixedOutputVal` divided by the
effective efficiency when a fixed output is set (not the -1 sentinel) and the
period year equals the vintage year, and 0 in every other period or when no
fixed output is set; at `fixedOutputVal = 50`, efficiency 1/4 it returns 200
in the vintage year and 0 otherwise. -/
theorem getFixedInput_spec (fixedOutputVal : ℚ) (year periodYear : ℤ)
    (efficiency effPenalty : ℚ) :
    (fixedOutputVal ≠ -1 → year = periodYear →
      getFixedInput fixedOutputVal year periodYear efficiency effPenalty
        = fixedOutputVal / (efficiency * (1 - effPenalty)))
  ∧ (year ≠ periodYear →
      getFixedInput fixedOutputVal year periodYear efficiency effPenalty = 0)
  ∧ getFixedInput (-1) year periodYear efficiency effPenalty = 0
  ∧ (year = periodYear → getFixedInput 50 year periodYear (1/4) 0 = 200)
  ∧ (year ≠ periodYear → getFixedInput 50 year periodYear (1/4) 0 = 0) := by
  refine ⟨?_, ?_, ?_, ?_, ?_⟩
  · intro h1 h2
    simp [getFixedInput, getFixedOutputDefault, getEfficiency, h1, h2]
  · intro h
    simp [getFixedInput, h]
  · simp [getFixedInput, getFixedOutputDefault]
  · intro h
    subst h
    norm_num [getFixedInput, getFixedOutputDefault, getEfficiency]
  · intro h
    simp [getFixedInput, h]

/-- Witness for C7 in the vintage year 1975. -/
theorem getFixedInput_spec_witness :
    (1975 : ℤ) = 1975 ∧ getFixedInput 50 1975 1975 (1/4) 0 = 200 :=
  ⟨rfl, (getFixedInput_spec 50 1975 1975 (1/4) 0).2.2.2.1 rfl⟩

/-- Claim C3, evaluated on the code: the fuel input is
`share * demand / (efficiency * (1 - effPenalty))`, the guard around
`marketplace->addToDemand` is false for the fuels "none" and "renewable",
but it is TRUE for the empty fuel name, so the code does register demand for
an empty-named fuel, contrary to the claim. -/
theorem production_guard_eval :
    (∀ share demand efficiency effPenalty : ℚ, ∀ fuelName : String,
      (production share demand efficiency effPenalty fuelName).1
        = share * demand / (efficiency * (1 - effPenalty)))
  ∧ (production 1 10 (1/2) 0 "").2 = true
  ∧ (production 1 10 (1/2) 0 "none").2 = false
  ∧ (production 1 10 (1/2) 0 "renewable").2 = false
  ∧ (production 1 10 (1/2) 0 "coal").1 = 20 := by
  refine ⟨?_, rfl, rfl, rfl, ?_⟩
  · intro share demand efficiency effPenalty fuelName
    rfl
  · norm_num [production, getEfficiency]

/-- Claim C4: with the GDP factor held fixed (and a positive scaled GDP per
capita), the unnormalized share of `calcShare` is strictly decreasing in the
total cost over positive costs whenever `shrwts > 0` and `lexp < 0`; and a
zero share weight forces a zero unnormalized share regardless of cost. -/
theorem calcShare_spec :
    (∀ shrwts lexp fuelPrefElasticity scaledGdpPerCapita c₁ c₂ : ℝ,
        0 < shrwts → lexp < 0 → 0 < scaledGdpPerCapita → 0 < c₁ → c₁ < c₂ →
        calcShare shrwts lexp fuelPrefElasticity scaledGdpPerCapita c₂
          < calcShare shrwts lexp fuelPrefElasticity scaledGdpPerCapita c₁)
  ∧ ∀ lexp fuelPrefElasticity scaledGdpPerCapita c : ℝ,
      calcShare 0 lexp fuelPrefElasticity scaledGdpPerCapita c = 0 := by
  constructor
  · intro shrwts lexp elast gdp c₁ c₂ hw hl hg hc₁ h12
    have hpow : c₂ ^ lexp < c₁ ^ lexp := Real.rpow_lt_rpow_of_neg hc₁ h12 hl
    have hmul : shrwts * c₂ ^ lexp < shrwts * c₁ ^ lexp :=
      mul_lt_mul_of_pos_left hpow hw
    by_cases he : elast = 0
    · simpa [calcShare, he] using hmul
    · have hK : 0 < gdp ^ elast := Real.rpow_pos_of_pos hg elast
      simp only [calcShare, if_neg he]
      exact mul_lt_mul_of_pos_right hmul hK
  · intro lexp elast gdp c
    by_cases he : elast = 0 <;> simp [calcShare, he]

/-- Witness for C4 at `shrwts = 1`, `lexp = -1`, elasticity 0, costs 1 < 2. -/
theorem calcShare_spec_witness :
    (0 : ℝ) < 1 ∧ (-1 : ℝ) < 0 ∧ (1 : ℝ) < 2 ∧
      calcShare 1 (-1) 0 1 2 < calcShare 1 (-1) 0 1 1 :=
  ⟨by norm_num, by norm_num, by norm_num,
    calcShare_spec.1 1 (-1) 0 1 1 2 (by norm_num) (by norm_num) (by norm_num)
      (by norm_num) (by norm_num)⟩

/-- Claim C5: in `adjustForCalibration`, a zero share weight with a positive
calibration output is first bumped to 1; then a positive technology demand
`share * subSectorDemand` multiplies the (possibly bumped) weight by
`calOutput / technologyDemand`, a non-positive technology demand leaves the
weight exactly at its (possibly bumped) value, and a negative resulting
weight is reset to 1. -/
theorem adjustForCalibration_spec (cal share dmd w : ℚ) :
    (w = 0 → 0 < cal → 0 < share * dmd →
      adjustForCalibration cal share dmd w = cal / (share * dmd))
  ∧ (w = 0 → 0 < cal → ¬ 0 < share * dmd →
      adjustForCalibration cal share dmd w = 1)
  ∧ (¬ (w = 0 ∧ 0 < cal) → ¬ 0 < share * dmd → 0 ≤ w →
      adjustForCalibration cal share dmd w = w)
  ∧ (¬ (w = 0 ∧ 0 < cal) → 0 < share * dmd → 0 ≤ w * (cal / (share * dmd)) →
      adjustForCalibration cal share dmd w = w * (cal / (share * dmd)))
  ∧ (¬ 0 < share * dmd → (if w = 0 ∧ 0 < cal then (1 : ℚ) else w) < 0 →
      adjustForCalibration cal share dmd w = 1)
  ∧ (0 < share * dmd →
      (if w = 0 ∧ 0 < cal then (1 : ℚ) else w) * (cal / (share * dmd)) < 0 →
      adjustForCalibration cal share dmd w = 1) := by
  refine ⟨?_, ?_, ?_, ?_, ?_, ?_⟩
  · intro h1 h2 h3
    subst h1
    have hpos : 0 < cal / (share * dmd) := div_pos h2 h3
    simp [adjustForCalibration, h2, h3, not_lt.mpr hpos.le]
  · intro h1 h2 h3
    subst h1
    simp [adjustForCalibration, h2, h3]
  · intro h1 h2 h3
    simp [adjustForCalibration, h1, h2, not_lt.mpr h3]
  · intro h1 h2 h3
    simp [adjustForCalibration, h1, h2, not_lt.mpr h3]
  · intro h1 hb
    simp only [adjustForCalibration]
    rw [if_neg h1, if_pos hb]
  · intro h1 hb
    simp only [adjustForCalibration]
    rw [if_pos h1, if_pos hb]

/-- Witness for C5 with zero weight, calibration output 5, share 1,
subsector demand 2. -/
theorem adjustForCalibration_spec_witness :
    (0 : ℚ) = 0 ∧ (0 : ℚ) < 5 ∧ (0 : ℚ) < 1 * 2 ∧
      adjustForCalibration 5 1 2 0 = 5 / (1 * 2) :=
  ⟨rfl, by norm_num, by norm_num,
    (adjustForCalibration_spec 5 1 2 0).1 rfl (by norm_num) (by norm_num)⟩

/-- Claim C8: after `completeInit`, the CO2 gas name is present in the gas
list even when it was absent from the input configuration, the gas names stay
pairwise distinct (exactly one emission source per distinct gas name, when
the parsed configuration already had distinct names), with the CO2 entry
occurring exactly once, and the primary output sits at index 0 of the output
list. -/
theorem completeInit_spec (co2Name sectorName : String)
    (ghgNames : List String) (mOutputs : List OutputChannel) :
    co2Name ∈ completeInitGhg co2Name ghgNames
  ∧ (ghgNames.Nodup → (completeInitGhg co2Name ghgNames).Nodup)
  ∧ (ghgNames.Nodup → (completeInitGhg co2Name ghgNames).count co2Name = 1)
  ∧ (completeInitOutputs sectorName mOutputs).head?
      = some (OutputChannel.primaryOutput sectorName) := by
  have hmem : co2Name ∈ completeInitGhg co2Name ghgNames := by
    unfold completeInitGhg
    by_cases h : co2Name ∈ ghgNames
    · simp [h]
    · simp [h]
  have hnodup : ghgNames.Nodup → (completeInitGhg co2Name ghgNames).Nodup := by
    intro hnd
    unfold completeInitGhg
    by_cases h : co2Name ∈ ghgNames
    · simp [h, hnd]
    · simp [h, List.nodup_append, hnd]
  refine ⟨hmem, hnodup, ?_, rfl⟩
  intro hnd
  exact List.count_eq_one_of_mem (hnodup hnd) hmem

/-- Witness for C8 with the configured gases `["CH4"]` (no CO2 supplied). -/
theorem completeInit_spec_witness :
    (["CH4"] : List String).Nodup ∧
      "CO2" ∈ completeInitGhg "CO2" ["CH4"] ∧
      (completeInitGhg "CO2" ["CH4"]).Nodup ∧
      (completeInitGhg "CO2" ["CH4"]).count "CO2" = 1 :=
  ⟨by decide,
    (completeInit_spec "CO2" "electricity" ["CH4"] []).1,
    (completeInit_spec "CO2" "electricity" ["CH4"] []).2.1 (by decide),
    (completeInit_spec "CO2" "electricity" ["CH4"] []).2.2.1 (by decide)⟩

lemma calcEmission_foldl_snd (fuelName : String) (gs : List GhgState) :
    ∀ (acc : List (String × ℚ)) (gprev : GhgState),
      (List.foldl (calcEmissionStep fuelName)
          (acc, [(fuelName, gprev.emissFuel)]) gs).2
        = [(fuelName, (gs.getLastD gprev).emissFuel)] := by
  induction gs with
  | nil => intro acc gprev; rfl
  | cons g gs ih =>
    intro acc gprev
    have h1 : calcEmissionStep fuelName (acc, [(fuelName, gprev.emissFuel)]) g
        = ((calcEmissionStep fuelName (acc, [(fuelName, gprev.emissFuel)]) g).1,
           [(fuelName, g.emissFuel)]) := by
      simp [calcEmissionStep, mapSet]
    show (List.foldl (calcEmissionStep fuelName)
        (calcEmissionStep fuelName (acc, [(fuelName, gprev.emissFuel)]) g) gs).2 = _
    rw [h1, List.getLastD_cons]
    exact ih _ g

/-- Claim C10: after `calcEmission` on a nonempty gas list, `emfuelmap` holds
exactly one entry, keyed by the fuel name alone, whose value is the fuel
emission of the LAST emission source in the list — each gas in the loop
overwrites the entry written by the previous one. -/
theorem calcEmission_emfuelmap (fuelName : String) (g : GhgState)
    (gs : List GhgState) :
    (calcEmission fuelName (g :: gs)).2
      = [(fuelName, (gs.getLastD g).emissFuel)] := by
  have h1 : calcEmissionStep fuelName ([], []) g
      = ((calcEmissionStep fuelName ([], []) g).1, [(fuelName, g.emissFuel)]) := by
    simp [calcEmissionStep, mapSet]
  show (List.foldl (calcEmissionStep fuelName)
      (calcEmissionStep fuelName ([], []) g) gs).2 = _
  rw [h1]
  exact calcEmission_foldl_snd fuelName gs _ g

end Technology
